import Mathlib

/-!
Verification development for the differential-expression and candidate-selection
core (`src/omics.py`).

The Python functions are shallowly embedded as Lean definitions:

* p-values are modelled as `Option ℚ` — `none` models a `NaN` entry;
* expression values are modelled as `ℚ`;
* `scipy.stats.ttest_ind` (a floating-point t-distribution computation) is a
  parameter `tt : List ℚ → List ℚ → Option ℚ` of the model, where `none`
  models a `NaN` result or a raised exception;
* the floating-point quantity `|log2fc| * -np.log10(fdr + 1e-300)` is
  modelled by its exact real-number counterpart `deSignal` and, inside the
  executable pipeline, by a parameter `dsig : ℚ → ℚ → ℚ`;
* file output is modelled by returning the CSV contents (header and rows);
  an `Except.error` result means the run aborts and writes nothing.
-/

/-- A p-value entry: `none` models a `NaN` (missing) entry of the numpy array. -/
abbrev PVal := Option ℚ

/-- The valid (non-`NaN`) p-values of the array together with their original
indices, starting the index count at `i`.  This models
`valid_mask = ~np.isnan(p_values)` followed by `p_values[valid_mask]`,
keeping the original position of each valid entry. -/
def validPairsFrom : ℕ → List PVal → List (ℕ × ℚ)
  | _, [] => []
  | i, none :: t => validPairsFrom (i + 1) t
  | i, some v :: t => (i, v) :: validPairsFrom (i + 1) t

/-- Valid p-values with their original (0-based) indices. -/
def validPairs (ps : List PVal) : List (ℕ × ℚ) :=
  validPairsFrom 0 ps

/-- Comparison of index/p-value pairs by p-value, the sort key of
`np.argsort(valid_pvals)`. -/
def pairLe (a b : ℕ × ℚ) : Prop := a.2 ≤ b.2

instance : DecidableRel pairLe := fun a b => inferInstanceAs (Decidable (a.2 ≤ b.2))

instance : IsTotal (ℕ × ℚ) pairLe := ⟨fun a b => le_total a.2 b.2⟩

instance : IsTrans (ℕ × ℚ) pairLe := ⟨fun _ _ _ h h2 => le_trans h h2⟩

/-- The valid p-values sorted ascending, each carrying its original index.
This models `sorted_indices = np.argsort(valid_pvals)` together with
`sorted_pvals = valid_pvals[sorted_indices]`. -/
def sortedPairs (ps : List PVal) : List (ℕ × ℚ) :=
  (validPairs ps).insertionSort pairLe

/-- Raw BH-adjusted values with the rank counter starting at `r`:
`adjusted = sorted_pvals * n_valid / ranks`. -/
def rawAdjustedFrom (n : ℕ) : ℕ → List ℚ → List ℚ
  | _, [] => []
  | r, p :: t => p * n / r :: rawAdjustedFrom n (r + 1) t

/-- Raw BH-adjusted values: `adjusted = sorted_pvals * n_valid / ranks` with
`ranks = np.arange(1, n_valid + 1)`. -/
def rawAdjusted (n : ℕ) (sorted : List ℚ) : List ℚ :=
  rawAdjustedFrom n 1 sorted

/-- Suffix minima: entry `k` is the minimum of the values at positions
`k, k + 1, ..., end`.  This is exactly
`np.minimum.accumulate(adjusted[::-1])[::-1]`: a running minimum taken from
the last entry down to the first. -/
def suffixMins : List ℚ → List ℚ
  | [] => []
  | a :: t =>
    match suffixMins t with
    | [] => [a]
    | b :: u => min a b :: b :: u

/-- Cap every adjusted value at `1.0`: `np.minimum(adjusted_monotonic, 1.0)`. -/
def capOne (l : List ℚ) : List ℚ :=
  l.map (fun q => min q 1)

/-- The raw adjusted values of the sorted valid p-values, with
`n = n_valid = len(valid_pvals)`. -/
def adjVals (ps : List PVal) : List ℚ :=
  rawAdjusted (validPairs ps).length ((sortedPairs ps).map Prod.snd)

/-- The capped monotonic adjusted values, in sorted order (the array
`adjusted_monotonic` after the cap at `1.0`). -/
def cappedVals (ps : List PVal) : List ℚ :=
  capOne (suffixMins (adjVals ps))

/-- Benjamini-Hochberg FDR correction, embedding `benjamini_hochberg` of
`src/omics.py`.  The scatter
`unsorted_adjusted[sorted_indices] = adjusted_monotonic;
fdr[valid_mask] = unsorted_adjusted` assigns to each valid original index the
capped monotonic value of its sorted position, and leaves `NaN` elsewhere;
since the sorted indices are pairwise distinct this assignment is the
association-list lookup used here.  The `n == 0` and all-`NaN` early returns
of the source coincide with the general formula (empty output, respectively
all-`none` output). -/
def benjamini_hochberg (ps : List PVal) : List PVal :=
  let assoc := (((sortedPairs ps).map Prod.fst).zip (cappedVals ps))
  (List.range ps.length).map (fun i => (assoc.find? (fun pr => pr.1 == i)).map Prod.snd)

/-! Embedding of `parse_tcga_sample_labels` of `src/omics.py`. -/

/-- Value of a nonempty all-digit character sequence, the digit core accepted
by Python `int()`.  (Underscore digit grouping needs a digit on both sides and
so cannot occur in a 2-character code; it is therefore not modelled.) -/
def digitsVal? (cs : List Char) : Option ℕ :=
  if cs ≠ [] ∧ cs.all Char.isDigit then
    some (cs.foldl (fun acc c => 10 * acc + (c.toNat - 48)) 0)
  else none

/-- Python `int(s)` on a short string: strip surrounding whitespace, accept an
optional sign followed by digits, otherwise fail (`ValueError` ≙ `none`). -/
def pyInt? (s : String) : Option ℤ :=
  let cs := ((s.data.dropWhile Char.isWhitespace).reverse.dropWhile
    Char.isWhitespace).reverse
  match cs with
  | '+' :: rest => (digitsVal? rest).map (fun n => (n : ℤ))
  | '-' :: rest => (digitsVal? rest).map (fun n => -(n : ℤ))
  | _ => (digitsVal? cs).map (fun n => (n : ℤ))

/-- One sample-label record: columns `sample_id`, `sample_type_code`,
`sample_type_group` of the classifier output frame. -/
structure SampleLabel where
  sample_id : String
  sample_type_code : String
  sample_type_group : String
deriving DecidableEq

/-- The barcode slice `sample_id[13:15]` (0-indexed positions 13-14). -/
def codeSlice (s : String) : String :=
  String.mk ((s.data.drop 13).take 2)

/-- Classification of one sample identifier, the loop body of
`parse_tcga_sample_labels`: barcodes with the `TCGA-` prefix and length at
least 15 have their 2-character type code parsed as an integer; codes 1-9 are
`tumor`, 10-19 are `normal`, anything else (including a failed parse, which
also resets the stored code to `XX`) is `other`. -/
def classifySample (sample_id : String) : SampleLabel :=
  if 15 ≤ sample_id.data.length ∧ sample_id.data.take 5 = ['T', 'C', 'G', 'A', '-'] then
    match pyInt? (codeSlice sample_id) with
    | some k =>
      if 1 ≤ k ∧ k ≤ 9 then ⟨sample_id, codeSlice sample_id, "tumor"⟩
      else if 10 ≤ k ∧ k ≤ 19 then ⟨sample_id, codeSlice sample_id, "normal"⟩
      else ⟨sample_id, codeSlice sample_id, "other"⟩
    | none => ⟨sample_id, "XX", "other"⟩
  else ⟨sample_id, "XX", "other"⟩

/-- Embedding of `parse_tcga_sample_labels`: one record per identifier, in
input order; the function is total (malformed identifiers never raise). -/
def parse_tcga_sample_labels (ids : List String) : List SampleLabel :=
  ids.map classifySample

/-! Embedding of the per-gene statistics of `run_omics`. -/

/-- Arithmetic mean (`np.nanmean` on `NaN`-free data). -/
def mean (l : List ℚ) : ℚ :=
  l.sum / l.length

/-- Sample variance with `ddof = 1` (`np.nanvar(·, ddof=1)` on `NaN`-free
data): sum of squared deviations divided by `n - 1`.  (For `n ≤ 1` numpy
produces `NaN` with a warning; in `ℚ` the division degenerates to `0`; the
engine only meets groups of at least 3 samples.) -/
def sampleVar (l : List ℚ) : ℚ :=
  (l.map (fun x => (x - mean l) ^ 2)).sum / ((l.length : ℚ) - 1)

/-- One row of the differential-expression results frame. -/
structure GeneResult where
  gene : String
  log2fc : ℚ
  p_value : ℚ
  direction : String
  tumor_mean : ℚ
  normal_mean : ℚ
deriving DecidableEq

/-- The per-gene loop body of `run_omics`: means, log2 fold change (inputs
already log2-scale, so a plain difference), direction from the sign of the
fold change, and the p-value policy — `1.0` without consulting the t-test
when both groups have zero variance, otherwise the t-test's result with
`1.0` substituted for a `NaN` result or a raised exception (both modelled by
`tt` returning `none`). -/
def geneStats (tt : List ℚ → List ℚ → Option ℚ) (gene : String)
    (tumor_vals normal_vals : List ℚ) : GeneResult :=
  let tumor_mean := mean tumor_vals
  let normal_mean := mean normal_vals
  let log2fc := tumor_mean - normal_mean
  let direction := if log2fc > 0 then "up" else "down"
  let p_value :=
    if sampleVar tumor_vals = 0 ∧ sampleVar normal_vals = 0 then 1
    else
      match tt tumor_vals normal_vals with
      | none => 1
      | some p => p
  ⟨gene, log2fc, p_value, direction, tumor_mean, normal_mean⟩

/-! Embedding of the run-level pipeline of `run_omics`. -/

/-- Number of classified tumor samples. -/
def tumorCount (ids : List String) : ℕ :=
  ((parse_tcga_sample_labels ids).filter
    (fun l => l.sample_type_group == "tumor")).length

/-- Number of classified normal samples. -/
def normalCount (ids : List String) : ℕ :=
  ((parse_tcga_sample_labels ids).filter
    (fun l => l.sample_type_group == "normal")).length

/-- The values of one gene row restricted to the samples of one group
(`counts_filtered[tumor_samples]` column selection, expressed positionally:
the value list is aligned with the sample-identifier list). -/
def groupVals (sampleIds : List String) (vals : List ℚ) (grp : String) : List ℚ :=
  (sampleIds.zip vals).filterMap
    (fun sv => if (classifySample sv.1).sample_type_group = grp then some sv.2 else none)

/-- Fraction of samples with a strictly positive value:
`(counts_df > 0).sum(axis=1) / n_samples`. -/
def nonzeroFraction (nSamples : ℕ) (vals : List ℚ) : ℚ :=
  ((vals.filter (fun x => decide (0 < x))).length : ℚ) / nSamples

/-- The gene filter of `run_omics`:
`keep_mask = (gene_means >= 1.0) | (nonzero_fraction >= 0.20)`.
The thresholds `1.0` and `0.20` are literals in the source (floats, modelled
as exact rationals); no configuration value reaches this test. -/
def keepGene (nSamples : ℕ) (vals : List ℚ) : Bool :=
  decide (1 ≤ mean vals) || decide (1/5 ≤ nonzeroFraction nSamples vals)

/-- The gene-filter step `counts_filtered = counts_df[keep_mask]`: rows whose
gene passes `keepGene`; columns are untouched. -/
def filterGenes (nSamples : ℕ) (counts : List (String × List ℚ)) :
    List (String × List ℚ) :=
  counts.filter (fun g => keepGene nSamples g.2)

/-- Modelled from the spec (refinement comparison for C8): the gene filter as
the specification describes it, with the two thresholds drawn from the
configuration surface instead of hard-coded. -/
def keepGeneSpec (meanThr nzThr : ℚ) (nSamples : ℕ) (vals : List ℚ) : Bool :=
  decide (meanThr ≤ mean vals) || decide (nzThr ≤ nonzeroFraction nSamples vals)

/-- The configuration surface consumed by the core, with the values already
resolved against their defaults (`top_n = 500`, `fdr_threshold = 0.05`).
`gene_filter_mean` and `gene_filter_nonzero_frac` are the spec's configurable
gene-filter thresholds; the YAML dictionary can carry them, but the source
never reads them (see C8). -/
structure Config where
  dataset_label : String
  use_api : Bool
  top_n : ℕ
  fdr_threshold : ℚ
  gene_filter_mean : ℚ
  gene_filter_nonzero_frac : ℚ
deriving DecidableEq

/-- Errors that abort the whole run.  `insufficientSamples g c` models
`ValueError(f"Insufficient {g} samples for DE analysis: {c} (need at least 3)")`. -/
inductive OmicsError where
  | insufficientSamples (group : String) (count : ℕ)
deriving DecidableEq

/-- A written CSV file: header row and data rows. -/
structure CSVFile (α : Type) where
  header : List String
  rows : List α
deriving DecidableEq

/-- One row of the written evidence file, in its column order. -/
structure EvRow where
  gene : String
  gene_symbol : String
  log2fc : ℚ
  p_value : ℚ
  fdr : PVal
  direction : String
  tumor_mean : ℚ
  normal_mean : ℚ
  dataset : String
deriving DecidableEq

/-- One row of the candidate file (without the trailing rank column). -/
structure CandRow where
  gene : String
  gene_symbol : String
  log2fc : ℚ
  fdr : PVal
  direction : String
deriving DecidableEq

/-- Both output files of the run. -/
structure RunOutput where
  evidence : CSVFile EvRow
  candidates : CSVFile (CandRow × ℕ)
deriving DecidableEq

/-- Ordering of `fdr` keys for `sort_values('fdr')`: ascending, missing
values last (pandas `na_position='last'`). -/
def fdrLeB (a b : PVal) : Bool :=
  match a, b with
  | some x, some y => decide (x ≤ y)
  | some _, none => true
  | none, some _ => false
  | none, none => true

/-- Header of the evidence file, the column order set before writing. -/
def evHeader : List String :=
  ["gene", "gene_symbol", "log2fc", "p_value", "fdr", "direction",
   "tumor_mean", "normal_mean", "dataset"]

/-- Header of the candidate file. -/
def candHeader : List String :=
  ["gene", "gene_symbol", "log2fc", "fdr", "direction", "rank"]

/-- The annotated, FDR-sorted evidence rows of `run_omics`: filter genes,
compute per-gene statistics, apply BH correction jointly, attach dataset
label and gene symbol (empty when `use_api` is false; otherwise from the
mapping collaborator `sym`), and sort ascending by `fdr`.  The insertion sort
is a stable determinization of `sort_values('fdr')` (pandas quicksort leaves
tie order unspecified). -/
def evidenceRows (tt : List ℚ → List ℚ → Option ℚ) (sym : String → String)
    (cfg : Config) (sampleIds : List String)
    (counts : List (String × List ℚ)) : List EvRow :=
  let filtered := filterGenes sampleIds.length counts
  let results := filtered.map (fun g =>
    geneStats tt g.1 (groupVals sampleIds g.2 "tumor")
      (groupVals sampleIds g.2 "normal"))
  let fdrs := benjamini_hochberg (results.map (fun r => some r.p_value))
  let rows := (results.zip fdrs).map (fun rf =>
    ({ gene := rf.1.gene,
       gene_symbol := if cfg.use_api then sym rf.1.gene else "",
       log2fc := rf.1.log2fc,
       p_value := rf.1.p_value,
       fdr := rf.2,
       direction := rf.1.direction,
       tumor_mean := rf.1.tumor_mean,
       normal_mean := rf.1.normal_mean,
       dataset := cfg.dataset_label } : EvRow))
  rows.insertionSort (fun a b => fdrLeB a.fdr b.fdr = true)

/-- The significance filter `results_df[results_df['fdr'] < fdr_threshold]`
(a missing `fdr` never satisfies `<`, as in pandas). -/
def sigFilter (thr : ℚ) (rows : List EvRow) : List EvRow :=
  rows.filter (fun r =>
    match r.fdr with
    | some f => decide (f < thr)
    | none => false)

/-- The exact real-number counterpart of the float de-signal
`|log2fc| * -np.log10(fdr + 1e-300)`. -/
noncomputable def deSignal (log2fc fdr : ℝ) : ℝ :=
  |log2fc| * (-(Real.logb 10 (fdr + 1e-300)))

/-- The candidate selection of `run_omics`: keep significant rows, attach the
de-signal (`dsig` models the float computation whose exact counterpart is
`deSignal`), take the `min(top_n, count)` largest by de-signal —
`nlargest(·, 'de_signal')` sorts descending keeping earlier rows first on
ties — and assign dense 1-based ranks in the produced order. -/
def selectCandidates (dsig : ℚ → ℚ → ℚ) (thr : ℚ) (top_n : ℕ)
    (rows : List EvRow) : List (CandRow × ℕ) :=
  let sig := sigFilter thr rows
  let withDs := sig.map (fun r => (r, dsig r.log2fc (r.fdr.getD 0)))
  let sorted := withDs.insertionSort (fun a b => b.2 ≤ a.2)
  let top := (sorted.take (min top_n sig.length)).map Prod.fst
  (top.zip (List.range' 1 top.length)).map (fun rn =>
    (⟨rn.1.gene, rn.1.gene_symbol, rn.1.log2fc, rn.1.fdr, rn.1.direction⟩, rn.2))

/-- Embedding of the whole `run_omics` computation on already-loaded data:
classify samples, enforce the 3-sample guard for each group (tumor first),
then produce the evidence file and the candidate file.  An `Except.error`
result models the raised `ValueError`: the run aborts and neither output
file is written. -/
def run_omics (tt : List ℚ → List ℚ → Option ℚ) (sym : String → String)
    (dsig : ℚ → ℚ → ℚ) (cfg : Config) (sampleIds : List String)
    (counts : List (String × List ℚ)) : Except OmicsError RunOutput :=
  let labels := parse_tcga_sample_labels sampleIds
  let tumor_samples := (labels.filter
    (fun l => l.sample_type_group == "tumor")).map (fun l => l.sample_id)
  let normal_samples := (labels.filter
    (fun l => l.sample_type_group == "normal")).map (fun l => l.sample_id)
  if tumor_samples.length < 3 then
    .error (.insufficientSamples "tumor" tumor_samples.length)
  else if normal_samples.length < 3 then
    .error (.insufficientSamples "normal" normal_samples.length)
  else
    let rows := evidenceRows tt sym cfg sampleIds counts
    .ok { evidence := ⟨evHeader, rows⟩
          candidates :=
            ⟨candHeader, selectCandidates dsig cfg.fdr_threshold cfg.top_n rows⟩ }

/-! Structural lemmas about the valid-entry extraction and the sort. -/

theorem validPairsFrom_snd_mem {p : ℕ × ℚ} :
    ∀ (l : List PVal) (i : ℕ), p ∈ validPairsFrom i l → some p.2 ∈ l := by
  intro l
  induction l with
  | nil => intro i h; simp [validPairsFrom] at h
  | cons o t ih =>
    intro i h
    cases o with
    | none => exact List.mem_cons_of_mem _ (ih _ h)
    | some v =>
      rw [validPairsFrom, List.mem_cons] at h
      rcases h with h | h
      · subst h; exact List.mem_cons_self _ _
      · exact List.mem_cons_of_mem _ (ih _ h)

theorem validPairsFrom_get?_mem :
    ∀ (l : List PVal) (i k : ℕ) (v : ℚ), l.get? k = some (some v) →
      (i + k, v) ∈ validPairsFrom i l := by
  intro l
  induction l with
  | nil => intro i k v h; simp at h
  | cons o t ih =>
    intro i k v h
    cases k with
    | zero =>
      simp only [List.get?] at h
      injection h with h
      subst h
      simp [validPairsFrom]
    | succ k =>
      simp only [List.get?] at h
      have hmem := ih (i + 1) k v h
      cases o with
      | none =>
        rw [validPairsFrom]
        have : i + (k + 1) = (i + 1) + k := by omega
        rw [this]
        exact hmem
      | some w =>
        rw [validPairsFrom]
        refine List.mem_cons_of_mem _ ?_
        have : i + (k + 1) = (i + 1) + k := by omega
        rw [this]
        exact hmem

theorem validPairsFrom_mem_get? {p : ℕ × ℚ} :
    ∀ (l : List PVal) (i : ℕ), p ∈ validPairsFrom i l →
      ∃ k, p.1 = i + k ∧ l.get? k = some (some p.2) := by
  intro l
  induction l with
  | nil => intro i h; simp [validPairsFrom] at h
  | cons o t ih =>
    intro i h
    cases o with
    | none =>
      obtain ⟨k, hk, hg⟩ := ih (i + 1) h
      exact ⟨k + 1, by omega, hg⟩
    | some v =>
      rw [validPairsFrom, List.mem_cons] at h
      rcases h with h | h
      · subst h; exact ⟨0, by omega, rfl⟩
      · obtain ⟨k, hk, hg⟩ := ih (i + 1) h
        exact ⟨k + 1, by omega, hg⟩

theorem validPairsFrom_fst_ge {p : ℕ × ℚ} :
    ∀ (l : List PVal) (i : ℕ), p ∈ validPairsFrom i l → i ≤ p.1 := by
  intro l i h
  obtain ⟨k, hk, _⟩ := validPairsFrom_mem_get? l i h
  omega

theorem validPairsFrom_nodup_fst :
    ∀ (l : List PVal) (i : ℕ), ((validPairsFrom i l).map Prod.fst).Nodup := by
  intro l
  induction l with
  | nil => intro i; simp [validPairsFrom]
  | cons o t ih =>
    intro i
    cases o with
    | none => exact ih (i + 1)
    | some v =>
      rw [validPairsFrom, List.map_cons, List.nodup_cons]
      refine ⟨?_, ih (i + 1)⟩
      intro hmem
      obtain ⟨q, hq, hq1⟩ := List.mem_map.mp hmem
      have := validPairsFrom_fst_ge t (i + 1) hq
      omega

theorem sortedPairs_perm (ps : List PVal) :
    List.Perm (sortedPairs ps) (validPairs ps) :=
  List.perm_insertionSort pairLe (validPairs ps)

theorem sortedPairs_length (ps : List PVal) :
    (sortedPairs ps).length = (validPairs ps).length :=
  (sortedPairs_perm ps).length_eq

theorem sortedPairs_nodup_fst (ps : List PVal) :
    ((sortedPairs ps).map Prod.fst).Nodup :=
  (((sortedPairs_perm ps).map Prod.fst).nodup_iff).mpr (validPairsFrom_nodup_fst ps 0)

theorem sortedPairs_sorted (ps : List PVal) : (sortedPairs ps).Sorted pairLe :=
  List.sorted_insertionSort pairLe (validPairs ps)

theorem sortedPairs_mem_snd {p : ℕ × ℚ} {ps : List PVal} (h : p ∈ sortedPairs ps) :
    some p.2 ∈ ps :=
  validPairsFrom_snd_mem ps 0 ((sortedPairs_perm ps).mem_iff.mp h)

theorem sortedPairs_mem_get? {p : ℕ × ℚ} {ps : List PVal} (h : p ∈ sortedPairs ps) :
    ps.get? p.1 = some (some p.2) := by
  obtain ⟨k, hk, hg⟩ :=
    validPairsFrom_mem_get? ps 0 ((sortedPairs_perm ps).mem_iff.mp h)
  rw [Nat.zero_add] at hk
  rwa [hk]

theorem mem_sortedPairs {i : ℕ} {v : ℚ} {ps : List PVal}
    (h : ps.get? i = some (some v)) : (i, v) ∈ sortedPairs ps := by
  have hmem := validPairsFrom_get?_mem ps 0 i v h
  rw [Nat.zero_add] at hmem
  exact (sortedPairs_perm ps).mem_iff.mpr hmem

/-! Index lemmas for the adjusted-value arrays. -/

theorem rawAdjustedFrom_length (n : ℕ) :
    ∀ (r : ℕ) (l : List ℚ), (rawAdjustedFrom n r l).length = l.length := by
  intro r l
  induction l generalizing r with
  | nil => rfl
  | cons p t ih => simp [rawAdjustedFrom, ih]

theorem rawAdjusted_length (n : ℕ) (l : List ℚ) :
    (rawAdjusted n l).length = l.length :=
  rawAdjustedFrom_length n 1 l

theorem rawAdjustedFrom_getElem (n : ℕ) :
    ∀ (r : ℕ) (l : List ℚ) (k : ℕ) (h : k < l.length)
      (h2 : k < (rawAdjustedFrom n r l).length),
      (rawAdjustedFrom n r l)[k] = l[k] * n / (r + k) := by
  intro r l
  induction l generalizing r with
  | nil => intro k h h2; simp at h
  | cons p t ih =>
    intro k h h2
    cases k with
    | zero => simp [rawAdjustedFrom]
    | succ k =>
      have hk : k < t.length := Nat.lt_of_succ_lt_succ h
      have hk2 : k < (rawAdjustedFrom n (r + 1) t).length := by
        rw [rawAdjustedFrom_length]; exact hk
      simp only [rawAdjustedFrom, List.getElem_cons_succ]
      rw [ih (r + 1) k hk hk2]
      push_cast
      ring

theorem rawAdjusted_getElem (n : ℕ) (l : List ℚ) (k : ℕ) (h : k < l.length)
    (h2 : k < (rawAdjusted n l).length) :
    (rawAdjusted n l)[k] = l[k] * n / (k + 1) := by
  have h2' : k < (rawAdjustedFrom n 1 l).length := by
    rw [rawAdjustedFrom_length]; exact h
  have heq : (rawAdjusted n l)[k] = (rawAdjustedFrom n 1 l)[k] := rfl
  rw [heq, rawAdjustedFrom_getElem n 1 l k h h2']
  push_cast
  ring

theorem suffixMins_length : ∀ l : List ℚ, (suffixMins l).length = l.length := by
  intro l
  induction l with
  | nil => rfl
  | cons a t ih =>
    rw [suffixMins]
    rcases h : suffixMins t with _ | ⟨b, u⟩ <;> simp_all

theorem suffixMins_cons (a : ℚ) (t : List ℚ) :
    ∃ m : ℚ, suffixMins (a :: t) = m :: suffixMins t ∧ m ≤ a ∧
      (t = [] → m = a) ∧
      (∀ h : 0 < (suffixMins t).length, m = min a (suffixMins t)[0]) := by
  rw [suffixMins]
  rcases h : suffixMins t with _ | ⟨b, u⟩
  · refine ⟨a, rfl, le_refl a, fun _ => rfl, ?_⟩
    intro hlen
    simp at hlen
  · refine ⟨min a b, rfl, min_le_left a b, ?_, ?_⟩
    · intro ht
      subst ht
      simp [suffixMins] at h
    · intro hlen
      simp [h]

theorem suffixMins_getElem_le (l : List ℚ) (k : ℕ) (h : k < l.length)
    (h2 : k < (suffixMins l).length) : (suffixMins l)[k] ≤ l[k] := by
  induction l generalizing k with
  | nil => simp at h
  | cons a t ih =>
    obtain ⟨m, hm, hma, _, _⟩ := suffixMins_cons a t
    cases k with
    | zero => simp [hm, hma]
    | succ k =>
      have hk : k < t.length := Nat.lt_of_succ_lt_succ h
      have hk2 : k < (suffixMins t).length := by rw [suffixMins_length]; exact hk
      have := ih k hk hk2
      simp only [hm, List.getElem_cons_succ]
      exact this

theorem le_suffixMins_getElem (l : List ℚ) (k : ℕ) (h : k < l.length)
    (h2 : k < (suffixMins l).length) (c : ℚ)
    (hc : ∀ (j : ℕ) (hj : j < l.length), k ≤ j → c ≤ l[j]) :
    c ≤ (suffixMins l)[k] := by
  induction l generalizing k with
  | nil => simp at h
  | cons a t ih =>
    obtain ⟨m, hm, _, hnil, hmin⟩ := suffixMins_cons a t
    cases k with
    | zero =>
      rcases Nat.eq_zero_or_pos t.length with ht | ht
      · have hteq : t = [] := List.length_eq_zero.mp ht
        have hma := hnil hteq
        subst hma
        simp only [hm, List.getElem_cons_zero]
        exact hc 0 h (Nat.le_refl 0)
      · have ht2 : 0 < (suffixMins t).length := by rw [suffixMins_length]; exact ht
        simp only [hm, List.getElem_cons_zero]
        rw [hmin ht2]
        refine le_min (hc 0 h (Nat.le_refl 0)) ?_
        refine ih 0 ht ht2 ?_
        intro j hj _
        exact hc (j + 1) (by simpa using Nat.succ_lt_succ hj) (Nat.zero_le _)
    | succ k =>
      have hk : k < t.length := Nat.lt_of_succ_lt_succ h
      have hk2 : k < (suffixMins t).length := by rw [suffixMins_length]; exact hk
      have := ih k hk hk2 (fun j hj hkj =>
        hc (j + 1) (by simpa using Nat.succ_lt_succ hj) (Nat.succ_le_succ hkj))
      simp only [hm, List.getElem_cons_succ]
      exact this

theorem suffixMins_sorted : ∀ l : List ℚ, (suffixMins l).Sorted (· ≤ ·) := by
  intro l
  induction l with
  | nil => exact List.sorted_nil
  | cons a t ih =>
    rw [suffixMins]
    rcases h : suffixMins t with _ | ⟨b, u⟩
    · simp
    · rw [h] at ih
      rw [List.sorted_cons]
      refine ⟨?_, ih⟩
      intro c hc
      refine le_trans (min_le_right a b) ?_
      rcases List.mem_cons.mp hc with hce | hcu
      · subst hce; exact le_refl _
      · exact (List.sorted_cons.mp ih).1 c hcu

/-! Lookup of the scattered values in the association list. -/

theorem find_zip_of_getElem :
    ∀ (xs : List ℕ) (cs : List ℚ) (i k : ℕ) (hk : k < xs.length)
      (hk2 : k < cs.length), xs.Nodup → xs[k] = i →
      (xs.zip cs).find? (fun pr => pr.1 == i) = some (i, cs[k]) := by
  intro xs
  induction xs with
  | nil => intro cs i k hk; simp at hk
  | cons x xs ih =>
    intro cs i k hk hk2 hnd hx
    cases cs with
    | nil => simp at hk2
    | cons c cs =>
      cases k with
      | zero =>
        simp only [List.getElem_cons_zero] at hx
        subst hx
        simp [List.zip_cons_cons, List.find?]
      | succ k =>
        have hkx : k < xs.length := Nat.lt_of_succ_lt_succ hk
        have hkc : k < cs.length := Nat.lt_of_succ_lt_succ hk2
        simp only [List.getElem_cons_succ] at hx
        have himem : i ∈ xs := hx ▸ List.getElem_mem hkx
        have hxi : x ≠ i := fun hxe => (List.nodup_cons.mp hnd).1 (hxe ▸ himem)
        rw [List.zip_cons_cons, List.find?]
        have : (x == i) = false := by
          simp [hxi]
        rw [this]
        exact ih cs i k hkx hkc (List.nodup_cons.mp hnd).2 hx

theorem find_zip_of_not_mem (xs : List ℕ) (cs : List ℚ) (i : ℕ) (hi : i ∉ xs) :
    (xs.zip cs).find? (fun pr => pr.1 == i) = none := by
  rw [List.find?_eq_none]
  intro p hp
  have := (List.of_mem_zip hp).1
  simp only [beq_iff_eq]
  intro he
  exact hi (he ▸ this)

/-! The positional characterization of the BH output. -/

theorem adjVals_length (ps : List PVal) :
    (adjVals ps).length = (sortedPairs ps).length := by
  rw [adjVals, rawAdjusted_length, List.length_map]

theorem adjVals_getElem (ps : List PVal) (k : ℕ) (hk : k < (sortedPairs ps).length)
    (hk2 : k < (adjVals ps).length) :
    (adjVals ps)[k] = (sortedPairs ps)[k].2 * (validPairs ps).length / (k + 1) := by
  have hkm : k < ((sortedPairs ps).map Prod.snd).length := by
    rw [List.length_map]; exact hk
  have heq : (adjVals ps)[k] =
      (rawAdjusted (validPairs ps).length ((sortedPairs ps).map Prod.snd))[k] := rfl
  rw [heq, rawAdjusted_getElem _ _ k hkm hk2, List.getElem_map]

theorem cappedVals_length (ps : List PVal) :
    (cappedVals ps).length = (sortedPairs ps).length := by
  rw [cappedVals, capOne, List.length_map, suffixMins_length, adjVals_length]

theorem cappedVals_getElem (ps : List PVal) (k : ℕ)
    (hk : k < (suffixMins (adjVals ps)).length) (hk2 : k < (cappedVals ps).length) :
    (cappedVals ps)[k] = min (suffixMins (adjVals ps))[k] 1 := by
  have heq : (cappedVals ps)[k] =
      ((suffixMins (adjVals ps)).map (fun q => min q 1))[k] := rfl
  rw [heq, List.getElem_map]

theorem benjamini_hochberg_length (ps : List PVal) :
    (benjamini_hochberg ps).length = ps.length := by
  rw [benjamini_hochberg]
  simp

theorem benjamini_hochberg_get? (ps : List PVal) (i : ℕ) (h : i < ps.length) :
    (benjamini_hochberg ps).get? i =
      some (((((sortedPairs ps).map Prod.fst).zip (cappedVals ps)).find?
        (fun pr => pr.1 == i)).map Prod.snd) := by
  rw [benjamini_hochberg]
  rw [List.get?_eq_getElem?]
  simp [h]

/-- A `NaN` input entry yields a `NaN` output entry at the same position. -/
theorem bh_none_get {ps : List PVal} {i : ℕ} (h : ps.get? i = some none) :
    (benjamini_hochberg ps).get? i = some none := by
  have hi : i < ps.length := List.get?_eq_some.mp h |>.1
  rw [benjamini_hochberg_get? ps i hi]
  rw [find_zip_of_not_mem]
  · rfl
  · intro hmem
    obtain ⟨p, hp, hp1⟩ := List.mem_map.mp hmem
    have := sortedPairs_mem_get? hp
    rw [hp1] at this
    rw [h] at this
    simp at this

/-- A valid input entry at position `i` receives the capped monotonic adjusted
value of its position `k` in the sorted order. -/
theorem bh_valid_get {ps : List PVal} {i : ℕ} {v : ℚ}
    (h : ps.get? i = some (some v)) :
    ∃ (k : ℕ) (hk : k < (sortedPairs ps).length)
      (hk2 : k < (cappedVals ps).length),
      (sortedPairs ps)[k] = (i, v) ∧
      (benjamini_hochberg ps).get? i = some (some (cappedVals ps)[k]) := by
  have hi : i < ps.length := List.get?_eq_some.mp h |>.1
  have hmem := mem_sortedPairs h
  obtain ⟨k, hk, hget⟩ := List.mem_iff_getElem.mp hmem
  have hk2 : k < (cappedVals ps).length := by rw [cappedVals_length]; exact hk
  have hkm : k < ((sortedPairs ps).map Prod.fst).length := by
    rw [List.length_map]; exact hk
  refine ⟨k, hk, hk2, hget, ?_⟩
  rw [benjamini_hochberg_get? ps i hi]
  rw [find_zip_of_getElem ((sortedPairs ps).map Prod.fst) (cappedVals ps) i k hkm hk2
    (sortedPairs_nodup_fst ps) (by rw [List.getElem_map]; rw [hget])]
  rfl

theorem example_bh1 :
    benjamini_hochberg [some (1/100), some (1/50), some (3/100), some (1/2)] =
      [some (1/25), some (1/25), some (1/25), some (1/2)] := by
  norm_num [benjamini_hochberg, cappedVals, adjVals, sortedPairs, validPairs,
    validPairsFrom, rawAdjusted, rawAdjustedFrom, suffixMins, capOne, pairLe,
    List.insertionSort, List.orderedInsert, min_def, List.range_succ, List.find?]
  simp

theorem example_bh2 :
    benjamini_hochberg [some (1/50), none, some (1/100)] =
      [some (1/50), none, some (1/50)] := by
  norm_num [benjamini_hochberg, cappedVals, adjVals, sortedPairs, validPairs,
    validPairsFrom, rawAdjusted, rawAdjustedFrom, suffixMins, capOne, pairLe,
    List.insertionSort, List.orderedInsert, min_def, List.range_succ, List.find?]
  simp

theorem suffixMins_getElem_succ_min (l : List ℚ) (k : ℕ) (h : k + 1 < l.length)
    (hl0 : k < l.length) (h0 : k < (suffixMins l).length)
    (h1 : k + 1 < (suffixMins l).length) :
    (suffixMins l)[k] = min l[k] ((suffixMins l)[k + 1]) := by
  induction l generalizing k with
  | nil => simp at h
  | cons a t ih =>
    obtain ⟨m, hm, _, hnil, hmin⟩ := suffixMins_cons a t
    cases k with
    | zero =>
      have ht : 0 < t.length := by
        simp only [List.length_cons] at h
        omega
      have ht2 : 0 < (suffixMins t).length := by rw [suffixMins_length]; exact ht
      simp only [hm, List.getElem_cons_zero, List.getElem_cons_succ]
      exact hmin ht2
    | succ k =>
      have hk1 : k + 1 < t.length := by
        simp only [List.length_cons] at h
        omega
      have hk0 : k < t.length := by omega
      have hs0 : k < (suffixMins t).length := by rw [suffixMins_length]; exact hk0
      have hs1 : k + 1 < (suffixMins t).length := by rw [suffixMins_length]; exact hk1
      simp only [hm, List.getElem_cons_succ]
      exact ih k hk1 hk0 hs0 hs1

theorem suffixMins_getElem_anti (l : List ℚ) (k k' : ℕ) (hkk : k ≤ k')
    (h' : k' < l.length) (hs : k < (suffixMins l).length)
    (hs' : k' < (suffixMins l).length)
    (hcond : ∀ (m : ℕ) (hm : m < l.length), k ≤ m → m < k' → l[k'] ≤ l[m]) :
    (suffixMins l)[k'] ≤ (suffixMins l)[k] := by
  obtain ⟨d, hd⟩ : ∃ d, k' = k + d := ⟨k' - k, by omega⟩
  clear hkk
  induction d generalizing k with
  | zero =>
    have hke : k' = k := by omega
    subst hke
    exact le_refl _
  | succ d ih =>
    have hkk' : k < k' := by omega
    have hk : k < l.length := by omega
    have hk1 : k + 1 < l.length := by omega
    have hsk1 : k + 1 < (suffixMins l).length := by rw [suffixMins_length]; exact hk1
    rw [suffixMins_getElem_succ_min l k hk1 hk hs hsk1]
    refine le_min ?_ ?_
    · exact le_trans (suffixMins_getElem_le l k' h' hs') (hcond k hk (le_refl k) hkk')
    · exact ih (k + 1) hsk1
        (fun m hm hm1 hm2 => hcond m hm (by omega) hm2) (by omega)

theorem sortedPairs_snd_le (ps : List PVal) (k l : ℕ) (hkl : k ≤ l)
    (hk : k < (sortedPairs ps).length) (hl : l < (sortedPairs ps).length) :
    (sortedPairs ps)[k].2 ≤ (sortedPairs ps)[l].2 := by
  have hs := sortedPairs_sorted ps
  have := List.Sorted.rel_get_of_le hs
    (a := ⟨k, hk⟩) (b := ⟨l, hl⟩) (Fin.mk_le_mk.mpr hkl)
  simpa [pairLe, List.get_eq_getElem] using this

/-- Every entry of the capped monotonic array is at most `1`, and is
nonnegative as soon as all valid p-values are nonnegative. -/
theorem cappedVals_mem_bounds (ps : List PVal)
    (hpos : ∀ o ∈ ps, 0 ≤ o.getD 0) (k : ℕ) (hk : k < (cappedVals ps).length) :
    0 ≤ (cappedVals ps)[k] ∧ (cappedVals ps)[k] ≤ 1 := by
  have hsl : k < (suffixMins (adjVals ps)).length := by
    rw [suffixMins_length, adjVals_length, ← cappedVals_length]; exact hk
  rw [cappedVals_getElem ps k hsl hk]
  refine ⟨le_min ?_ (by norm_num), min_le_right _ _⟩
  have hal : k < (adjVals ps).length := by
    rw [adjVals_length, ← cappedVals_length]; exact hk
  refine le_suffixMins_getElem (adjVals ps) k hal hsl 0 ?_
  intro j hj _
  have hjs : j < (sortedPairs ps).length := by rw [← adjVals_length ps]; exact hj
  rw [adjVals_getElem ps j hjs hj]
  have hmem : (sortedPairs ps)[j] ∈ sortedPairs ps := List.getElem_mem hjs
  have h0 : (0:ℚ) ≤ (sortedPairs ps)[j].2 := by
    have := hpos _ (sortedPairs_mem_snd hmem)
    simpa using this
  positivity

/-- CLAIM C1: the FDR corrector is the classical BH procedure exactly: the
output is aligned 1:1 with the input, missing (`NaN`) entries pass through as
missing, and on `p = [0.01, 0.02, 0.03, 0.50]` a single application returns
exactly `q = [0.04, 0.04, 0.04, 0.50]`.  The final conjunct exercises the
`NaN` path: with a missing middle entry only `n = 2` valid p-values enter the
correction, so `[0.02, NaN, 0.01]` maps to `[0.02, NaN, 0.02]` (the smallest
p-value is adjusted with `n / rank = 2 / 1`, showing missing entries
contribute nothing to `n`). -/
theorem claim_C1_bh_exact :
    (∀ ps : List PVal, (benjamini_hochberg ps).length = ps.length ∧
      ∀ i : ℕ, ((benjamini_hochberg ps).getD i (some 0) = none ↔
        ps.getD i (some 0) = none)) ∧
    benjamini_hochberg [some (1/100), some (1/50), some (3/100), some (1/2)] =
      [some (1/25), some (1/25), some (1/25), some (1/2)] ∧
    benjamini_hochberg [some (1/50), none, some (1/100)] =
      [some (1/50), none, some (1/50)] := by
  refine ⟨?_, example_bh1, example_bh2⟩
  intro ps
  refine ⟨benjamini_hochberg_length ps, ?_⟩
  intro i
  by_cases hi : i < ps.length
  · have hbi : i < (benjamini_hochberg ps).length := by
      rw [benjamini_hochberg_length]; exact hi
    have hgb : (benjamini_hochberg ps).getD i (some 0) =
        ((benjamini_hochberg ps).get? i).getD (some 0) := by
      rw [List.getD_eq_getElem _ _ hbi, List.get?_eq_getElem?,
        List.getElem?_eq_getElem hbi]
      rfl
    have hgp : ps.getD i (some 0) = (ps.get? i).getD (some 0) := by
      rw [List.getD_eq_getElem _ _ hi, List.get?_eq_getElem?,
        List.getElem?_eq_getElem hi]
      rfl
    rw [hgb, hgp]
    have : ∃ o, ps.get? i = some o := by
      rw [List.get?_eq_getElem?, List.getElem?_eq_getElem hi]
      exact ⟨_, rfl⟩
    obtain ⟨o, ho⟩ := this
    cases o with
    | none =>
      rw [ho, bh_none_get ho]
    | some v =>
      obtain ⟨k, hk, hk2, hget, hout⟩ := bh_valid_get ho
      rw [ho, hout]
      simp
  · have hbi : (benjamini_hochberg ps).length ≤ i := by
      rw [benjamini_hochberg_length]; omega
    rw [List.getD_eq_default _ _ hbi, List.getD_eq_default _ _ (by omega)]

/-- CLAIM C2: for every p-value array (all valid entries nonnegative, as
p-values are), the BH output is monotone with respect to the raw p-values —
whenever `p_i ≤ p_j`, the adjusted values satisfy `q_i ≤ q_j` — and every
non-missing adjusted value lies in `[0, 1]`. -/
theorem claim_C2_bh_monotone_bounded (ps : List PVal)
    (hpos : ∀ o ∈ ps, 0 ≤ o.getD 0) :
    (∀ (i j : ℕ) (a b qa qb : ℚ),
        ps.get? i = some (some a) → ps.get? j = some (some b) →
        (benjamini_hochberg ps).get? i = some (some qa) →
        (benjamini_hochberg ps).get? j = some (some qb) →
        a ≤ b → qa ≤ qb) ∧
    (∀ q : ℚ, some q ∈ benjamini_hochberg ps → 0 ≤ q ∧ q ≤ 1) := by
  constructor
  · intro i j a b qa qb hpi hpj hbi hbj hab
    obtain ⟨ki, hki, hki2, hgi, houti⟩ := bh_valid_get hpi
    obtain ⟨kj, hkj, hkj2, hgj, houtj⟩ := bh_valid_get hpj
    have hqa : (cappedVals ps)[ki] = qa := by
      have := houti.symm.trans hbi
      simpa using this
    have hqb : (cappedVals ps)[kj] = qb := by
      have := houtj.symm.trans hbj
      simpa using this
    have hsli : ki < (suffixMins (adjVals ps)).length := by
      rw [suffixMins_length, adjVals_length]; exact hki
    have hslj : kj < (suffixMins (adjVals ps)).length := by
      rw [suffixMins_length, adjVals_length]; exact hkj
    have hadjli : ki < (adjVals ps).length := by rw [adjVals_length]; exact hki
    have hadjlj : kj < (adjVals ps).length := by rw [adjVals_length]; exact hkj
    rw [← hqa, ← hqb, cappedVals_getElem ps ki hsli hki2,
      cappedVals_getElem ps kj hslj hkj2]
    rcases le_or_lt ki kj with hkk | hkk
    · have hs := suffixMins_sorted (adjVals ps)
      have hmono := List.Sorted.rel_get_of_le hs
        (a := ⟨ki, hsli⟩) (b := ⟨kj, hslj⟩) (Fin.mk_le_mk.mpr hkk)
      simp only [List.get_eq_getElem] at hmono
      exact min_le_min hmono (le_refl 1)
    · have hba : b ≤ a := by
        have := sortedPairs_snd_le ps kj ki (le_of_lt hkk) hkj hki
        rw [hgi, hgj] at this
        exact this
      have heqab : a = b := le_antisymm hab hba
      have hcond : ∀ (m : ℕ) (hm : m < (adjVals ps).length),
          kj ≤ m → m < ki → (adjVals ps)[ki] ≤ (adjVals ps)[m] := by
        intro m hm hkjm hmki
        have hms : m < (sortedPairs ps).length := by
          rw [← adjVals_length ps]; exact hm
        rw [adjVals_getElem ps ki hki hadjli, adjVals_getElem ps m hms hm]
        have h1 : (sortedPairs ps)[m].2 ≤ a := by
          have := sortedPairs_snd_le ps m ki (le_of_lt hmki) hms hki
          rw [hgi] at this
          exact this
        have h2 : b ≤ (sortedPairs ps)[m].2 := by
          have := sortedPairs_snd_le ps kj m hkjm hkj hms
          rw [hgj] at this
          exact this
        have hma : (sortedPairs ps)[m].2 = a := le_antisymm h1 (heqab ▸ h2)
        rw [hma, hgi]
        have ha0 : (0:ℚ) ≤ a := by
          have := hpos _ (List.get?_mem hpi)
          simpa using this
        have hd1 : (0:ℚ) < (m:ℚ) + 1 := by positivity
        have hd2 : (0:ℚ) < (ki:ℚ) + 1 := by positivity
        have hdd : (m:ℚ) + 1 ≤ (ki:ℚ) + 1 := by
          have : (m:ℚ) ≤ (ki:ℚ) := by exact_mod_cast le_of_lt hmki
          linarith
        have hnum : (0:ℚ) ≤ a * ((validPairs ps).length : ℚ) := by positivity
        calc (Prod.snd ((i:ℕ), a)) * ((validPairs ps).length : ℚ) / ((ki:ℚ) + 1)
            = a * ((validPairs ps).length : ℚ) / ((ki:ℚ) + 1) := rfl
          _ ≤ a * ((validPairs ps).length : ℚ) / ((m:ℚ) + 1) := by
              apply div_le_div_of_nonneg_left hnum hd1 hdd
          _ = a * ((validPairs ps).length : ℚ) / ((m:ℚ) + 1) := rfl
      have hanti := suffixMins_getElem_anti (adjVals ps) kj ki (le_of_lt hkk)
        hadjli hslj hsli hcond
      exact min_le_min hanti (le_refl 1)
  · intro q hq
    obtain ⟨i, hi⟩ := List.mem_iff_get?.mp hq
    have hilen : i < ps.length := by
      have := (List.get?_eq_some.mp hi).1
      rwa [benjamini_hochberg_length] at this
    obtain ⟨o, ho⟩ : ∃ o, ps.get? i = some o := by
      rw [List.get?_eq_getElem?, List.getElem?_eq_getElem hilen]
      exact ⟨_, rfl⟩
    cases o with
    | none =>
      rw [bh_none_get ho] at hi
      simp at hi
    | some v =>
      obtain ⟨k, hk, hk2, hget, hout⟩ := bh_valid_get ho
      have hqc : (cappedVals ps)[k] = q := by
        have := hout.symm.trans hi
        simpa using this
      rw [← hqc]
      exact cappedVals_mem_bounds ps hpos k hk2

/-- Witness for C2: a concrete p-value array satisfying the nonnegativity
hypothesis, at which the bounds conclusion is instantiated. -/
theorem claim_C2_witness :
    (∀ o ∈ ([some (1/2), none, some (1/4)] : List PVal), 0 ≤ o.getD 0) ∧
    ((0:ℚ) ≤ 1/2 ∧ (1/2:ℚ) ≤ 1) := by
  have h : ∀ o ∈ ([some (1/2), none, some (1/4)] : List PVal), 0 ≤ o.getD 0 := by
    intro o ho
    simp only [List.mem_cons, List.not_mem_nil, or_false] at ho
    rcases ho with rfl | rfl | rfl <;> norm_num
  refine ⟨h, (claim_C2_bh_monotone_bounded _ h).2 (1/2) ?_⟩
  have he : benjamini_hochberg [some (1/2), none, some (1/4)] =
      [some (1/2), none, some (1/2)] := by
    norm_num [benjamini_hochberg, cappedVals, adjVals, sortedPairs, validPairs,
      validPairsFrom, rawAdjusted, rawAdjustedFrom, suffixMins, capOne, pairLe,
      List.insertionSort, List.orderedInsert, min_def, List.range_succ, List.find?]
    simp
  rw [he]
  simp

/-- CLAIM C10: when every valid p-value lies in `[0, 1]`, each non-missing
BH-adjusted value is at least the raw p-value at the same position. -/
theorem claim_C10_bh_ge_raw (ps : List PVal)
    (hrange : ∀ o ∈ ps, 0 ≤ o.getD 0 ∧ o.getD 0 ≤ 1) :
    ∀ (i : ℕ) (v q : ℚ), ps.get? i = some (some v) →
      (benjamini_hochberg ps).get? i = some (some q) → v ≤ q := by
  intro i v q hp hb
  obtain ⟨k, hk, hk2, hget, hout⟩ := bh_valid_get hp
  have hqc : (cappedVals ps)[k] = q := by
    have := hout.symm.trans hb
    simpa using this
  have hsl : k < (suffixMins (adjVals ps)).length := by
    rw [suffixMins_length, adjVals_length]; exact hk
  have hadjl : k < (adjVals ps).length := by rw [adjVals_length]; exact hk
  rw [← hqc, cappedVals_getElem ps k hsl hk2]
  have hv1 : v ≤ 1 := by
    have := (hrange _ (List.get?_mem hp)).2
    simpa using this
  have hv0 : 0 ≤ v := by
    have := (hrange _ (List.get?_mem hp)).1
    simpa using this
  refine le_min ?_ hv1
  refine le_suffixMins_getElem (adjVals ps) k hadjl hsl v ?_
  intro j hj hkj
  have hjs : j < (sortedPairs ps).length := by rw [← adjVals_length ps]; exact hj
  rw [adjVals_getElem ps j hjs hj]
  have hjk2 : v ≤ (sortedPairs ps)[j].2 := by
    have := sortedPairs_snd_le ps k j hkj hk hjs
    rw [hget] at this
    exact this
  have hj0 : (0:ℚ) ≤ (sortedPairs ps)[j].2 := le_trans hv0 hjk2
  have hn : ((j:ℚ) + 1) ≤ ((validPairs ps).length : ℚ) := by
    have : j + 1 ≤ (validPairs ps).length := by
      rw [← sortedPairs_length]; omega
    exact_mod_cast this
  refine le_trans hjk2 ?_
  have hdpos : (0:ℚ) < (j:ℚ) + 1 := by positivity
  rw [le_div_iff hdpos]
  exact mul_le_mul_of_nonneg_left hn hj0

/-- Witness for C10: a concrete array with all valid p-values in `[0, 1]`; the
conclusion is instantiated at position `2`, where the raw p-value `1/4` is
adjusted upward to `1/2`. -/
theorem claim_C10_witness :
    (∀ o ∈ ([some (1/2), none, some (1/4)] : List PVal),
      0 ≤ o.getD 0 ∧ o.getD 0 ≤ 1) ∧ ((1/4:ℚ) ≤ 1/2) := by
  have h : ∀ o ∈ ([some (1/2), none, some (1/4)] : List PVal),
      0 ≤ o.getD 0 ∧ o.getD 0 ≤ 1 := by
    intro o ho
    simp only [List.mem_cons, List.not_mem_nil, or_false] at ho
    rcases ho with rfl | rfl | rfl <;> norm_num
  refine ⟨h, claim_C10_bh_ge_raw _ h 2 (1/4) (1/2) rfl ?_⟩
  have he : benjamini_hochberg [some (1/2), none, some (1/4)] =
      [some (1/2), none, some (1/2)] := by
    norm_num [benjamini_hochberg, cappedVals, adjVals, sortedPairs, validPairs,
      validPairsFrom, rawAdjusted, rawAdjustedFrom, suffixMins, capOne, pairLe,
      List.insertionSort, List.orderedInsert, min_def, List.range_succ, List.find?]
    simp
  rw [he]
  rfl


/-! Claims about the sample classifier. -/

theorem classifySample_sample_id (id : String) :
    (classifySample id).sample_id = id := by
  rw [classifySample]
  split
  · split <;> (try split_ifs) <;> rfl
  · rfl

theorem classifySample_group_cases (id : String) :
    (classifySample id).sample_type_group = "tumor" ∨
    (classifySample id).sample_type_group = "normal" ∨
    (classifySample id).sample_type_group = "other" := by
  rw [classifySample]
  split
  · split <;> (try split_ifs) <;> simp
  · simp

theorem classifySample_tumor_iff (id : String) :
    (classifySample id).sample_type_group = "tumor" ↔
      (15 ≤ id.data.length ∧ id.data.take 5 = ['T', 'C', 'G', 'A', '-'] ∧
        ∃ k : ℤ, pyInt? (codeSlice id) = some k ∧ 1 ≤ k ∧ k ≤ 9) := by
  rw [classifySample]
  split
  · split <;> (try split_ifs) <;> simp_all
  · simp_all

theorem classifySample_normal_iff (id : String) :
    (classifySample id).sample_type_group = "normal" ↔
      (15 ≤ id.data.length ∧ id.data.take 5 = ['T', 'C', 'G', 'A', '-'] ∧
        ∃ k : ℤ, pyInt? (codeSlice id) = some k ∧ 10 ≤ k ∧ k ≤ 19) := by
  rw [classifySample]
  split
  · split <;> (try split_ifs) <;> simp_all
    all_goals omega
  · simp_all

/-- CLAIM C4: the sample classifier returns exactly one label record per
identifier, in input order, carrying the identifier unchanged, and is total
(every identifier lands in one of the three groups, so no input raises).  An
identifier is labelled `tumor` exactly when it has the barcode shape (prefix
`TCGA-`, length at least 15) and its 2-character code at offset 13 parses to
an integer in 1..9, and `normal` exactly when the code parses into 10..19;
every other identifier is `other`.  In particular `TCGA-AA-3877-01A` is
tumor, `TCGA-AA-3877-11A` is normal, and `RANDOM-ID` is other. -/
theorem claim_C4_sample_classifier :
    (∀ ids : List String,
      (parse_tcga_sample_labels ids).length = ids.length ∧
      ∀ i : ℕ, ((parse_tcga_sample_labels ids).get? i).map SampleLabel.sample_id =
        ids.get? i) ∧
    (∀ id : String, (classifySample id).sample_type_group = "tumor" ∨
      (classifySample id).sample_type_group = "normal" ∨
      (classifySample id).sample_type_group = "other") ∧
    (∀ id : String, (classifySample id).sample_type_group = "tumor" ↔
      (15 ≤ id.data.length ∧ id.data.take 5 = ['T', 'C', 'G', 'A', '-'] ∧
        ∃ k : ℤ, pyInt? (codeSlice id) = some k ∧ 1 ≤ k ∧ k ≤ 9)) ∧
    (∀ id : String, (classifySample id).sample_type_group = "normal" ↔
      (15 ≤ id.data.length ∧ id.data.take 5 = ['T', 'C', 'G', 'A', '-'] ∧
        ∃ k : ℤ, pyInt? (codeSlice id) = some k ∧ 10 ≤ k ∧ k ≤ 19)) ∧
    (classifySample "TCGA-AA-3877-01A").sample_type_group = "tumor" ∧
    (classifySample "TCGA-AA-3877-11A").sample_type_group = "normal" ∧
    (classifySample "RANDOM-ID").sample_type_group = "other" := by
  refine ⟨?_, classifySample_group_cases, classifySample_tumor_iff,
    classifySample_normal_iff, by decide, by decide, by decide⟩
  intro ids
  refine ⟨by simp [parse_tcga_sample_labels], ?_⟩
  intro i
  rw [parse_tcga_sample_labels, List.get?_map]
  rcases ids.get? i with _ | id
  · rfl
  · simp [classifySample_sample_id]

/-! Claims about the per-gene test engine. -/

/-- CLAIM C5: when both groups have zero sample variance (ddof = 1) the
p-value is `1.0` and the t-test is never consulted (the result is the same
for every t-test function); a `NaN` or raised t-test (`tt` returning `none`)
is recovered locally as `p_value = 1.0`; the direction is `up` exactly when
the log2 fold change is positive and `down` otherwise; and a gene with
identical constant values `[10,10,10]` in both groups yields
`p_value = 1`, `log2fc = 0`, `direction = "down"`. -/
theorem claim_C5_degenerate_test :
    (∀ (tt tt2 : List ℚ → List ℚ → Option ℚ) (g : String) (tv nv : List ℚ),
      sampleVar tv = 0 ∧ sampleVar nv = 0 →
      (geneStats tt g tv nv).p_value = 1 ∧
        geneStats tt g tv nv = geneStats tt2 g tv nv) ∧
    (∀ (tt : List ℚ → List ℚ → Option ℚ) (g : String) (tv nv : List ℚ),
      tt tv nv = none → (geneStats tt g tv nv).p_value = 1) ∧
    (∀ (tt : List ℚ → List ℚ → Option ℚ) (g : String) (tv nv : List ℚ),
      (geneStats tt g tv nv).direction =
        if 0 < (geneStats tt g tv nv).log2fc then "up" else "down") ∧
    (∀ tt : List ℚ → List ℚ → Option ℚ,
      geneStats tt "g" [10, 10, 10] [10, 10, 10] =
        ⟨"g", 0, 1, "down", 10, 10⟩) := by
  refine ⟨?_, ?_, ?_, ?_⟩
  · intro tt tt2 g tv nv h
    constructor
    · simp [geneStats, h.1, h.2]
    · simp [geneStats, h.1, h.2]
  · intro tt g tv nv h
    rw [geneStats]
    simp only [h]
    split <;> rfl
  · intro tt g tv nv
    rfl
  · intro tt
    have hm : mean [10, 10, 10] = 10 := by
      norm_num [mean, List.sum_cons, List.sum_nil]
    have hv : sampleVar [10, 10, 10] = 0 := by
      norm_num [sampleVar, hm, List.sum_cons, List.sum_nil]
    simp [geneStats, hm, hv]

/-- Witness for C5: both zero-variance hypotheses and the `tt = none`
hypothesis hold at the constant gene `[10,10,10]`, and the conclusion is
instantiated there. -/
theorem claim_C5_witness :
    (sampleVar [(10:ℚ), 10, 10] = 0 ∧ sampleVar [(10:ℚ), 10, 10] = 0) ∧
    (geneStats (fun _ _ => none) "g" [10, 10, 10] [10, 10, 10]).p_value = 1 ∧
    geneStats (fun _ _ => none) "g" [10, 10, 10] [10, 10, 10] =
      geneStats (fun _ _ => some (1/2)) "g" [10, 10, 10] [10, 10, 10] := by
  have hm : mean [(10:ℚ), 10, 10] = 10 := by
    norm_num [mean, List.sum_cons, List.sum_nil]
  have hv : sampleVar [(10:ℚ), 10, 10] = 0 := by
    norm_num [sampleVar, hm, List.sum_cons, List.sum_nil]
  have h := claim_C5_degenerate_test.1 (fun _ _ => none) (fun _ _ => some (1/2))
    "g" [10, 10, 10] [10, 10, 10] ⟨hv, hv⟩
  exact ⟨⟨hv, hv⟩, h.1, h.2⟩

/-! Claims about the gene filter. -/

/-- CLAIM C7: the gene filter keeps a row exactly when the gene's mean across
all samples is at least `1.0` or its nonzero fraction across all samples is
at least `0.20`; it removes rows only (kept rows are unchanged, in order, so
sample columns are untouched).  A gene with mean `0.5` and nonzero fraction
`0.5` over 10 samples is retained; a gene with mean `0.5` and nonzero
fraction `0.1` is dropped. -/
theorem claim_C7_gene_filter :
    (∀ (nSamples : ℕ) (counts : List (String × List ℚ)) (g : String × List ℚ),
      g ∈ filterGenes nSamples counts ↔
        (g ∈ counts ∧ (1 ≤ mean g.2 ∨ 1/5 ≤ nonzeroFraction nSamples g.2))) ∧
    (∀ (nSamples : ℕ) (counts : List (String × List ℚ)),
      (filterGenes nSamples counts).Sublist counts) ∧
    (mean [1, 1, 1, 1, 1, 0, 0, 0, 0, 0] = 1/2 ∧
      nonzeroFraction 10 [1, 1, 1, 1, 1, 0, 0, 0, 0, 0] = 1/2 ∧
      keepGene 10 [1, 1, 1, 1, 1, 0, 0, 0, 0, 0] = true) ∧
    (mean [5, 0, 0, 0, 0, 0, 0, 0, 0, 0] = 1/2 ∧
      nonzeroFraction 10 [5, 0, 0, 0, 0, 0, 0, 0, 0, 0] = 1/10 ∧
      keepGene 10 [5, 0, 0, 0, 0, 0, 0, 0, 0, 0] = false) := by
  refine ⟨?_, ?_, ?_, ?_⟩
  · intro nSamples counts g
    rw [filterGenes, List.mem_filter, keepGene]
    simp [decide_eq_true_eq]
  · intro nSamples counts
    exact List.filter_sublist counts
  · refine ⟨?_, ?_, ?_⟩
    · norm_num [mean, List.sum_cons, List.sum_nil]
    · norm_num [nonzeroFraction, List.filter_cons, List.filter_nil]
    · norm_num [keepGene, mean, nonzeroFraction, List.sum_cons, List.sum_nil,
        List.filter_cons, List.filter_nil]
  · refine ⟨?_, ?_, ?_⟩
    · norm_num [mean, List.sum_cons, List.sum_nil]
    · norm_num [nonzeroFraction, List.filter_cons, List.filter_nil]
    · norm_num [keepGene, mean, nonzeroFraction, List.sum_cons, List.sum_nil,
        List.filter_cons, List.filter_nil]

/-! Claims about the run-level guard. -/

theorem run_omics_guard_counts (ids : List String) :
    (((parse_tcga_sample_labels ids).filter
      (fun l => l.sample_type_group == "tumor")).map
        (fun l => l.sample_id)).length = tumorCount ids ∧
    (((parse_tcga_sample_labels ids).filter
      (fun l => l.sample_type_group == "normal")).map
        (fun l => l.sample_id)).length = normalCount ids := by
  constructor <;> rw [List.length_map] <;> rfl

/-- CLAIM C3: with fewer than 3 classified tumor samples the run fails with
an `InsufficientSamples` error naming `tumor` and the observed count; with at
least 3 tumor but fewer than 3 normal samples it fails naming `normal` and
that count; with at least 3 of each this error is not raised and the run
returns its outputs.  (An `error` result models the raised `ValueError`: the
run aborts before either output file is written.) -/
theorem claim_C3_insufficient_samples
    (tt : List ℚ → List ℚ → Option ℚ) (sym : String → String)
    (dsig : ℚ → ℚ → ℚ) (cfg : Config) (ids : List String)
    (counts : List (String × List ℚ)) :
    (tumorCount ids < 3 →
      run_omics tt sym dsig cfg ids counts =
        .error (.insufficientSamples "tumor" (tumorCount ids))) ∧
    (3 ≤ tumorCount ids → normalCount ids < 3 →
      run_omics tt sym dsig cfg ids counts =
        .error (.insufficientSamples "normal" (normalCount ids))) ∧
    (3 ≤ tumorCount ids → 3 ≤ normalCount ids →
      ∃ out, run_omics tt sym dsig cfg ids counts = .ok out) := by
  obtain ⟨hT, hN⟩ := run_omics_guard_counts ids
  refine ⟨?_, ?_, ?_⟩
  · intro h1
    rw [run_omics]
    simp only [hT, hN]
    rw [if_pos h1]
  · intro h1 h2
    rw [run_omics]
    simp only [hT, hN]
    rw [if_neg (by omega), if_pos h2]
  · intro h1 h2
    rw [run_omics]
    simp only [hT, hN]
    rw [if_neg (by omega), if_neg (by omega)]
    exact ⟨_, rfl⟩

/-- Witness for C3: six identifiers with three tumor and only two normal
samples; the run fails naming `normal` and the count `2`. -/
theorem claim_C3_witness :
    (3 ≤ tumorCount ["TCGA-AA-0001-01A", "TCGA-AA-0002-01A", "TCGA-AA-0003-01A",
        "TCGA-AA-0001-11A", "TCGA-AA-0002-11A"] ∧
      normalCount ["TCGA-AA-0001-01A", "TCGA-AA-0002-01A", "TCGA-AA-0003-01A",
        "TCGA-AA-0001-11A", "TCGA-AA-0002-11A"] < 3) ∧
    run_omics (fun _ _ => none) (fun _ => "") (fun _ _ => 0)
      ⟨"d", false, 500, 1/20, 1, 1/5⟩
      ["TCGA-AA-0001-01A", "TCGA-AA-0002-01A", "TCGA-AA-0003-01A",
        "TCGA-AA-0001-11A", "TCGA-AA-0002-11A"] [] =
      .error (.insufficientSamples "normal" 2) := by
  have h1 : 3 ≤ tumorCount ["TCGA-AA-0001-01A", "TCGA-AA-0002-01A",
      "TCGA-AA-0003-01A", "TCGA-AA-0001-11A", "TCGA-AA-0002-11A"] := by decide
  have h2 : normalCount ["TCGA-AA-0001-01A", "TCGA-AA-0002-01A",
      "TCGA-AA-0003-01A", "TCGA-AA-0001-11A", "TCGA-AA-0002-11A"] = 2 := by decide
  have h := (claim_C3_insufficient_samples (fun _ _ => none) (fun _ => "")
    (fun _ _ => 0) ⟨"d", false, 500, 1/20, 1, 1/5⟩
    ["TCGA-AA-0001-01A", "TCGA-AA-0002-01A", "TCGA-AA-0003-01A",
      "TCGA-AA-0001-11A", "TCGA-AA-0002-11A"] []).2.1 h1 (by omega)
  rw [h2] at h
  exact ⟨⟨h1, by omega⟩, h⟩

/-! Claims about the candidate selector. -/

/-- CLAIM C9: when zero genes pass the FDR significance threshold, the run
completes without error and the candidate file is written with its headers
and no rows. -/
theorem claim_C9_empty_candidates
    (tt : List ℚ → List ℚ → Option ℚ) (sym : String → String)
    (dsig : ℚ → ℚ → ℚ) (cfg : Config) (ids : List String)
    (counts : List (String × List ℚ))
    (h1 : 3 ≤ tumorCount ids) (h2 : 3 ≤ normalCount ids)
    (hsig : ∀ r ∈ evidenceRows tt sym cfg ids counts, ∀ f : ℚ,
      r.fdr = some f → ¬ f < cfg.fdr_threshold) :
    run_omics tt sym dsig cfg ids counts =
      .ok ⟨⟨evHeader, evidenceRows tt sym cfg ids counts⟩, ⟨candHeader, []⟩⟩ := by
  obtain ⟨hT, hN⟩ := run_omics_guard_counts ids
  have hfil : sigFilter cfg.fdr_threshold (evidenceRows tt sym cfg ids counts) = [] := by
    rw [sigFilter, List.filter_eq_nil]
    intro r hr
    cases hf : r.fdr with
    | none => simp
    | some f =>
      simp only [decide_eq_true_eq]
      exact hsig r hr f hf
  have hsel : selectCandidates dsig cfg.fdr_threshold cfg.top_n
      (evidenceRows tt sym cfg ids counts) = [] := by
    rw [selectCandidates, hfil]
    simp [List.insertionSort]
  rw [run_omics]
  simp only [hT, hN]
  rw [if_neg (by omega), if_neg (by omega), hsel]

/-- Witness for C9: three tumor and three normal samples with an empty gene
set; no gene is significant and the run returns an empty candidate file. -/
theorem claim_C9_witness :
    (3 ≤ tumorCount ["TCGA-AA-0001-01A", "TCGA-AA-0002-01A", "TCGA-AA-0003-01A",
        "TCGA-AA-0001-11A", "TCGA-AA-0002-11A", "TCGA-AA-0003-11A"] ∧
     3 ≤ normalCount ["TCGA-AA-0001-01A", "TCGA-AA-0002-01A", "TCGA-AA-0003-01A",
        "TCGA-AA-0001-11A", "TCGA-AA-0002-11A", "TCGA-AA-0003-11A"]) ∧
    run_omics (fun _ _ => none) (fun _ => "") (fun _ _ => 0)
      ⟨"d", false, 500, 1/20, 1, 1/5⟩
      ["TCGA-AA-0001-01A", "TCGA-AA-0002-01A", "TCGA-AA-0003-01A",
        "TCGA-AA-0001-11A", "TCGA-AA-0002-11A", "TCGA-AA-0003-11A"] [] =
      .ok ⟨⟨evHeader, []⟩, ⟨candHeader, []⟩⟩ := by
  have h1 : 3 ≤ tumorCount ["TCGA-AA-0001-01A", "TCGA-AA-0002-01A",
      "TCGA-AA-0003-01A", "TCGA-AA-0001-11A", "TCGA-AA-0002-11A",
      "TCGA-AA-0003-11A"] := by decide
  have h2 : 3 ≤ normalCount ["TCGA-AA-0001-01A", "TCGA-AA-0002-01A",
      "TCGA-AA-0003-01A", "TCGA-AA-0001-11A", "TCGA-AA-0002-11A",
      "TCGA-AA-0003-11A"] := by decide
  have hev : evidenceRows (fun _ _ => none) (fun _ => "")
      ⟨"d", false, 500, 1/20, 1, 1/5⟩
      ["TCGA-AA-0001-01A", "TCGA-AA-0002-01A", "TCGA-AA-0003-01A",
        "TCGA-AA-0001-11A", "TCGA-AA-0002-11A", "TCGA-AA-0003-11A"] [] = [] := rfl
  have h := claim_C9_empty_candidates (fun _ _ => none) (fun _ => "") (fun _ _ => 0)
    ⟨"d", false, 500, 1/20, 1, 1/5⟩
    ["TCGA-AA-0001-01A", "TCGA-AA-0002-01A", "TCGA-AA-0003-01A",
      "TCGA-AA-0001-11A", "TCGA-AA-0002-11A", "TCGA-AA-0003-11A"] [] h1 h2
    (by rw [hev]; intro r hr; cases hr)
  rw [hev] at h
  exact ⟨⟨h1, h2⟩, h⟩

theorem deSignal_pow (n : ℕ) (f : ℝ) (hf : f + 1e-300 = (10:ℝ) ^ (-(n:ℤ))) :
    deSignal 1 f = n := by
  rw [deSignal, hf, abs_one, one_mul, Real.logb, Real.log_zpow]
  have hlog : Real.log 10 ≠ 0 := ne_of_gt (Real.log_pos (by norm_num))
  push_cast
  field_simp

theorem selectCandidates_length (dsig : ℚ → ℚ → ℚ) (thr : ℚ) (n : ℕ)
    (rows : List EvRow) :
    (selectCandidates dsig thr n rows).length = min n (sigFilter thr rows).length := by
  have hsl : (List.insertionSort (fun a b => b.2 ≤ a.2)
      (List.map (fun r => (r, dsig r.log2fc (Option.getD r.fdr 0)))
        (sigFilter thr rows))).length = (sigFilter thr rows).length := by
    rw [(List.perm_insertionSort _ _).length_eq, List.length_map]
  simp only [selectCandidates, List.length_map, List.length_zip, List.length_range',
    List.length_take, hsl]
  omega

theorem zip_range1_map_snd {α : Type} (l : List α) :
    (l.zip (List.range' 1 l.length)).map Prod.snd = List.range' 1 l.length :=
  List.map_snd_zip _ _ (by rw [List.length_range'])

theorem selectCandidates_ranks (dsig : ℚ → ℚ → ℚ) (thr : ℚ) (n : ℕ)
    (rows : List EvRow) :
    (selectCandidates dsig thr n rows).map Prod.snd =
      List.range' 1 (selectCandidates dsig thr n rows).length := by
  rw [selectCandidates_length]
  simp only [selectCandidates, List.map_map]
  have hone : (Prod.snd ∘ fun rn : EvRow × ℕ =>
      ((⟨rn.1.gene, rn.1.gene_symbol, rn.1.log2fc, rn.1.fdr, rn.1.direction⟩ : CandRow),
        rn.2)) = (Prod.snd : EvRow × ℕ → ℕ) := rfl
  rw [hone, zip_range1_map_snd]
  congr 1
  have hsl : (List.insertionSort (fun a b => b.2 ≤ a.2)
      (List.map (fun r => (r, dsig r.log2fc (Option.getD r.fdr 0)))
        (sigFilter thr rows))).length = (sigFilter thr rows).length := by
    rw [(List.perm_insertionSort _ _).length_eq, List.length_map]
  simp only [List.length_map, List.length_take, hsl]
  omega

theorem selectCandidates_mem (dsig : ℚ → ℚ → ℚ) (thr : ℚ) (n : ℕ)
    (rows : List EvRow) (p : CandRow × ℕ)
    (hp : p ∈ selectCandidates dsig thr n rows) :
    ∃ r ∈ rows, (∃ f : ℚ, r.fdr = some f ∧ f < thr) ∧
      p.1 = ⟨r.gene, r.gene_symbol, r.log2fc, r.fdr, r.direction⟩ := by
  simp only [selectCandidates] at hp
  obtain ⟨rn, hrn, hpe⟩ := List.mem_map.mp hp
  obtain ⟨hr1, -⟩ := List.of_mem_zip hrn
  obtain ⟨rd, hrd, hre⟩ := List.mem_map.mp hr1
  have hrd2 : rd ∈ (sigFilter thr rows).map
      (fun r => (r, dsig r.log2fc (r.fdr.getD 0))) :=
    ((List.perm_insertionSort _ _).mem_iff).mp (List.take_subset _ _ hrd)
  obtain ⟨r, hrsig, hred⟩ := List.mem_map.mp hrd2
  rw [sigFilter] at hrsig
  obtain ⟨hrrows, hpred⟩ := List.mem_filter.mp hrsig
  refine ⟨r, hrrows, ?_, ?_⟩
  · cases hf : r.fdr with
    | none => rw [hf] at hpred; simp at hpred
    | some f =>
      rw [hf] at hpred
      simp only [decide_eq_true_eq] at hpred
      exact ⟨f, rfl, hpred⟩
  · rw [← hpe, ← hre, ← hred]

/-- CLAIM C6: the candidate selector keeps exactly rows with `fdr` below the
threshold (every emitted candidate traces back to such a row, unchanged),
emits `min(top_n, count_of_significant)` rows, and assigns dense 1-based
ranks in output order.  On three significant genes whose de-signals — the
float `|log2fc| * -log10(fdr + 1e-300)`, tied here to its exact counterpart
`deSignal` — are `5`, `3` and `9`, selection with `top_n = 2` returns the
de-signal-9 gene with rank 1 and the de-signal-5 gene with rank 2.  The final
conjunct shows the tie rule: two rows with equal de-signal keep their stable
input order. -/
theorem claim_C6_candidate_selection :
    (∀ (dsig : ℚ → ℚ → ℚ) (thr : ℚ) (n : ℕ) (rows : List EvRow),
      (selectCandidates dsig thr n rows).length = min n (sigFilter thr rows).length ∧
      (selectCandidates dsig thr n rows).map Prod.snd =
        List.range' 1 (selectCandidates dsig thr n rows).length ∧
      (∀ p ∈ selectCandidates dsig thr n rows, ∃ r ∈ rows,
        (∃ f : ℚ, r.fdr = some f ∧ f < thr) ∧
        p.1 = ⟨r.gene, r.gene_symbol, r.log2fc, r.fdr, r.direction⟩)) ∧
    (∀ dsig : ℚ → ℚ → ℚ,
      ((dsig 1 (1/100000 - 1/10^300) : ℝ) = deSignal 1 ((1/100000 - 1/10^300 : ℚ) : ℝ)) →
      ((dsig 1 (1/1000 - 1/10^300) : ℝ) = deSignal 1 ((1/1000 - 1/10^300 : ℚ) : ℝ)) →
      ((dsig 1 (1/10^9 - 1/10^300) : ℝ) = deSignal 1 ((1/10^9 - 1/10^300 : ℚ) : ℝ)) →
      selectCandidates dsig (1/20) 2
        [⟨"g1", "", 1, 1/100, some (1/100000 - 1/10^300), "up", 1, 0, "d"⟩,
         ⟨"g2", "", 1, 1/100, some (1/1000 - 1/10^300), "up", 1, 0, "d"⟩,
         ⟨"g3", "", 1, 1/100, some (1/10^9 - 1/10^300), "up", 1, 0, "d"⟩] =
        [(⟨"g3", "", 1, some (1/10^9 - 1/10^300), "up"⟩, 1),
         (⟨"g1", "", 1, some (1/100000 - 1/10^300), "up"⟩, 2)]) ∧
    selectCandidates (fun _ _ => 7) (1/20) 2
      [⟨"g1", "", 1, 1/100, some (1/100), "up", 1, 0, "d"⟩,
       ⟨"g2", "", 2, 1/100, some (1/200), "up", 2, 0, "d"⟩] =
      [(⟨"g1", "", 1, some (1/100), "up"⟩, 1),
       (⟨"g2", "", 2, some (1/200), "up"⟩, 2)] := by
  refine ⟨fun dsig thr n rows =>
    ⟨selectCandidates_length dsig thr n rows,
     selectCandidates_ranks dsig thr n rows,
     fun p hp => selectCandidates_mem dsig thr n rows p hp⟩, ?_, ?_⟩
  · intro dsig h1 h2 h3
    have hd1 : dsig 1 (1/100000 - 1/10^300) = 5 := by
      have h5 : deSignal 1 ((1/100000 - 1/10^300 : ℚ) : ℝ) = (5:ℕ) :=
        deSignal_pow 5 _ (by push_cast; rw [zpow_neg]; norm_num)
      have := h1.trans h5
      exact_mod_cast this
    have hd2 : dsig 1 (1/1000 - 1/10^300) = 3 := by
      have h5 : deSignal 1 ((1/1000 - 1/10^300 : ℚ) : ℝ) = (3:ℕ) :=
        deSignal_pow 3 _ (by push_cast; rw [zpow_neg]; norm_num)
      have := h2.trans h5
      exact_mod_cast this
    have hd3 : dsig 1 (1/10^9 - 1/10^300) = 9 := by
      have h5 : deSignal 1 ((1/10^9 - 1/10^300 : ℚ) : ℝ) = (9:ℕ) :=
        deSignal_pow 9 _ (by push_cast; rw [zpow_neg]; norm_num)
      have := h3.trans h5
      exact_mod_cast this
    clear h1 h2 h3
    have hq1 : (1/100000 - 1/10^300 : ℚ) < 1/20 := by norm_num
    have hq2 : (1/1000 - 1/10^300 : ℚ) < 1/20 := by norm_num
    have hq3 : (1/10^9 - 1/10^300 : ℚ) < 1/20 := by norm_num
    generalize hf1e : (1/100000 - 1/10^300 : ℚ) = f1 at hd1 hq1 ⊢
    generalize hf2e : (1/1000 - 1/10^300 : ℚ) = f2 at hd2 hq2 ⊢
    generalize hf3e : (1/10^9 - 1/10^300 : ℚ) = f3 at hd3 hq3 ⊢
    simp only [selectCandidates, sigFilter, List.filter_cons, List.filter_nil]
    norm_num [hq1, hq2, hq3, hd1, hd2, hd3, List.insertionSort, List.orderedInsert,
      List.range']
  · simp only [selectCandidates, sigFilter, List.filter_cons, List.filter_nil]
    norm_num [List.insertionSort, List.orderedInsert, List.range']

/-- Witness for C6: a concrete de-signal function agreeing with the exact
`deSignal` at the three rows, at which the concrete-selection conclusion is
instantiated. -/
theorem claim_C6_witness :
    (((fun _ f => if f = 1/100000 - 1/10^300 then (5:ℚ)
        else if f = 1/1000 - 1/10^300 then 3 else 9 : ℚ → ℚ → ℚ) 1
          (1/100000 - 1/10^300) : ℝ) =
      deSignal 1 ((1/100000 - 1/10^300 : ℚ) : ℝ)) ∧
    selectCandidates
      (fun _ f => if f = 1/100000 - 1/10^300 then (5:ℚ)
        else if f = 1/1000 - 1/10^300 then 3 else 9) (1/20) 2
      [⟨"g1", "", 1, 1/100, some (1/100000 - 1/10^300), "up", 1, 0, "d"⟩,
       ⟨"g2", "", 1, 1/100, some (1/1000 - 1/10^300), "up", 1, 0, "d"⟩,
       ⟨"g3", "", 1, 1/100, some (1/10^9 - 1/10^300), "up", 1, 0, "d"⟩] =
      [(⟨"g3", "", 1, some (1/10^9 - 1/10^300), "up"⟩, 1),
       (⟨"g1", "", 1, some (1/100000 - 1/10^300), "up"⟩, 2)] := by
  have e1 : ((fun _ f => if f = 1/100000 - 1/10^300 then (5:ℚ)
      else if f = 1/1000 - 1/10^300 then 3 else 9 : ℚ → ℚ → ℚ) 1
        (1/100000 - 1/10^300) : ℝ) = deSignal 1 ((1/100000 - 1/10^300 : ℚ) : ℝ) := by
    rw [deSignal_pow 5 _ (by push_cast; rw [zpow_neg]; norm_num)]
    norm_num
  have e2 : ((fun _ f => if f = 1/100000 - 1/10^300 then (5:ℚ)
      else if f = 1/1000 - 1/10^300 then 3 else 9 : ℚ → ℚ → ℚ) 1
        (1/1000 - 1/10^300) : ℝ) = deSignal 1 ((1/1000 - 1/10^300 : ℚ) : ℝ) := by
    rw [deSignal_pow 3 _ (by push_cast; rw [zpow_neg]; norm_num)]
    norm_num
  have e3 : ((fun _ f => if f = 1/100000 - 1/10^300 then (5:ℚ)
      else if f = 1/1000 - 1/10^300 then 3 else 9 : ℚ → ℚ → ℚ) 1
        (1/10^9 - 1/10^300) : ℝ) = deSignal 1 ((1/10^9 - 1/10^300 : ℚ) : ℝ) := by
    rw [deSignal_pow 9 _ (by push_cast; rw [zpow_neg]; norm_num)]
    norm_num
  exact ⟨e1, claim_C6_candidate_selection.2.1 _ e1 e2 e3⟩

/-! Claim C8: configurability of the gene-filter thresholds. -/

/-- Counterexample to C8: under a configuration whose gene-filter thresholds
are `100` and `0.9` — different from the defaults — the filter still keeps a
gene of mean `5` and nonzero fraction `1/6` (and the full evidence pipeline
run with that configuration still contains the gene), although the
spec-modelled filter `keepGeneSpec` with the configured thresholds drops it:
the code's filter does not use the configured values. -/
theorem claim_C8_counterexample :
    filterGenes 6 [("g", [30, 0, 0, 0, 0, 0])] = [("g", [30, 0, 0, 0, 0, 0])] ∧
    keepGeneSpec 100 (9/10) 6 [30, 0, 0, 0, 0, 0] = false ∧
    ¬((100 : ℚ) = 1 ∧ (9/10 : ℚ) = 1/5) ∧
    (evidenceRows (fun _ _ => none) (fun _ => "")
        ⟨"d", false, 500, 1/20, 100, 9/10⟩
        ["TCGA-AA-0001-01A", "TCGA-AA-0002-01A", "TCGA-AA-0003-01A",
         "TCGA-AA-0001-11A", "TCGA-AA-0002-11A", "TCGA-AA-0003-11A"]
        [("g", [30, 0, 0, 0, 0, 0])]).map EvRow.gene = ["g"] := by
  refine ⟨?_, ?_, by norm_num, ?_⟩
  · norm_num [filterGenes, keepGene, mean, nonzeroFraction, List.sum_cons,
      List.sum_nil, List.filter_cons, List.filter_nil]
  · norm_num [keepGeneSpec, mean, nonzeroFraction, List.sum_cons, List.sum_nil,
      List.filter_cons, List.filter_nil]
  · have ht1 : classifySample "TCGA-AA-0001-01A" =
        ⟨"TCGA-AA-0001-01A", "01", "tumor"⟩ := by decide
    have ht2 : classifySample "TCGA-AA-0002-01A" =
        ⟨"TCGA-AA-0002-01A", "01", "tumor"⟩ := by decide
    have ht3 : classifySample "TCGA-AA-0003-01A" =
        ⟨"TCGA-AA-0003-01A", "01", "tumor"⟩ := by decide
    have hn1 : classifySample "TCGA-AA-0001-11A" =
        ⟨"TCGA-AA-0001-11A", "11", "normal"⟩ := by decide
    have hn2 : classifySample "TCGA-AA-0002-11A" =
        ⟨"TCGA-AA-0002-11A", "11", "normal"⟩ := by decide
    have hn3 : classifySample "TCGA-AA-0003-11A" =
        ⟨"TCGA-AA-0003-11A", "11", "normal"⟩ := by decide
    norm_num [evidenceRows, filterGenes, keepGene, mean, nonzeroFraction, groupVals,
      geneStats, sampleVar, ht1, ht2, ht3, hn1, hn2, hn3,
      List.sum_cons, List.sum_nil, List.filter_cons, List.filter_nil,
      benjamini_hochberg, cappedVals, adjVals, sortedPairs, validPairs, validPairsFrom,
      rawAdjusted, rawAdjustedFrom, suffixMins, capOne, pairLe,
      List.insertionSort, List.orderedInsert, min_def, List.range_succ, List.find?,
      fdrLeB]

/-- CLAIM C8, amended: the gene-filter thresholds are hard-coded to `1.0` and
`0.20`; the filter coincides with the spec-modelled filter only at exactly
those default values, and the evidence pipeline's result is entirely
independent of the configured gene-filter thresholds (it depends only on the
dataset label and the `use_api` flag among the configuration fields it
consumes before candidate selection). -/
theorem claim_C8_amended :
    (∀ (nS : ℕ) (vals : List ℚ), keepGene nS vals = keepGeneSpec 1 (1/5) nS vals) ∧
    (∀ (tt : List ℚ → List ℚ → Option ℚ) (sym : String → String)
        (cfg cfg2 : Config) (ids : List String) (counts : List (String × List ℚ)),
      cfg.dataset_label = cfg2.dataset_label → cfg.use_api = cfg2.use_api →
      evidenceRows tt sym cfg ids counts = evidenceRows tt sym cfg2 ids counts) := by
  refine ⟨fun nS vals => rfl, ?_⟩
  intro tt sym cfg cfg2 ids counts h1 h2
  simp only [evidenceRows, h1, h2]

/-- Witness for the amended C8: two configurations that differ exactly in the
gene-filter thresholds produce identical evidence rows. -/
theorem claim_C8_witness :
    ((⟨"d", false, 500, 1/20, 1, 1/5⟩ : Config).dataset_label =
      (⟨"d", false, 500, 1/20, 100, 9/10⟩ : Config).dataset_label) ∧
    ((⟨"d", false, 500, 1/20, 1, 1/5⟩ : Config).use_api =
      (⟨"d", false, 500, 1/20, 100, 9/10⟩ : Config).use_api) ∧
    evidenceRows (fun _ _ => none) (fun _ => "")
        (⟨"d", false, 500, 1/20, 1, 1/5⟩ : Config)
        ["TCGA-AA-0001-01A"] [("g", [30])] =
      evidenceRows (fun _ _ => none) (fun _ => "")
        (⟨"d", false, 500, 1/20, 100, 9/10⟩ : Config)
        ["TCGA-AA-0001-01A"] [("g", [30])] :=
  ⟨rfl, rfl, claim_C8_amended.2 (fun _ _ => none) (fun _ => "") _ _
    ["TCGA-AA-0001-01A"] [("g", [30])] rfl rfl⟩
